import Mathlib

set_option maxRecDepth 8000

/-! Verification of the blog2post conversion pipeline.

List-of-characters string utilities shared by the URL model, the
sanitizer and the prompt builder. `leadsWith pat s` checks that `s`
starts with `pat`; `containsSub needle hay` is substring search
(JavaScript `String.prototype.includes`). -/

def leadsWith : List Char → List Char → Bool
  | [], _ => true
  | _ :: _, [] => false
  | a :: as, b :: bs => if a = b then leadsWith as bs else false

def containsSub (needle : List Char) : List Char → Bool
  | [] => needle.isEmpty
  | b :: bs => leadsWith needle (b :: bs) || containsSub needle bs

def strContains (hay needle : String) : Bool := containsSub needle.data hay.data

def noChar (c : Char) : List Char → Bool
  | [] => true
  | x :: xs => if x = c then false else noChar c xs

def splitFirst (c : Char) : List Char → List Char × Option (List Char)
  | [] => ([], none)
  | x :: xs =>
    if x = c then ([], some xs)
    else (x :: (splitFirst c xs).1, (splitFirst c xs).2)

def splitAll (c : Char) : List Char → List (List Char)
  | [] => [[]]
  | x :: xs =>
    if x = c then [] :: splitAll c xs
    else
      match splitAll c xs with
      | [] => [[x]]
      | h :: t => (x :: h) :: t

def nonEmptyB : List Char → Bool
  | [] => false
  | _ :: _ => true

/-- JavaScript `String.prototype.replace` with a plain-string pattern:
replace the first occurrence only. -/
def replaceFirstL (pat rep : List Char) : List Char → List Char
  | [] => []
  | c :: rest =>
    if leadsWith pat (c :: rest) then rep ++ (c :: rest).drop pat.length
    else c :: replaceFirstL pat rep rest

/-! The URL model: an idealized WHATWG URL for the fragment of the
library the repository exercises. A URL is a base (scheme, host, port
and path), an ordered query-pair list and an optional fragment.
`parseU` splits at the first unescaped separators exactly as the web
URL parser does for these components; `setParam` is
`URLSearchParams.set`: replace the first pair with the key in place,
remove later duplicates, or append when absent. -/

structure ParsedUrl where
  base : List Char
  query : List (List Char × List Char)
  frag : Option (List Char)
deriving DecidableEq

def parsePair (seg : List Char) : List Char × List Char :=
  ((splitFirst '=' seg).1, ((splitFirst '=' seg).2).getD [])

def parseQueryPairs (qs : List Char) : List (List Char × List Char) :=
  ((splitAll '&' qs).filter nonEmptyB).map parsePair

def schemeMark : List Char := [':', '/', '/']

def parseU (s : List Char) : Option ParsedUrl :=
  if containsSub schemeMark (splitFirst '?' (splitFirst '#' s).1).1 then
    some { base := (splitFirst '?' (splitFirst '#' s).1).1,
           query := match (splitFirst '?' (splitFirst '#' s).1).2 with
                    | none => []
                    | some qs => parseQueryPairs qs,
           frag := (splitFirst '#' s).2 }
  else none

def pairChars (p : List Char × List Char) : List Char := p.1 ++ '=' :: p.2

def joinAmp : List (List Char × List Char) → List Char
  | [] => []
  | [p] => pairChars p
  | p :: q :: rest => pairChars p ++ '&' :: joinAmp (q :: rest)

def serializeU (u : ParsedUrl) : List Char :=
  u.base
    ++ (match u.query with
        | [] => []
        | _ :: _ => '?' :: joinAmp u.query)
    ++ (match u.frag with
        | none => []
        | some f => '#' :: f)

def parseUrl (s : String) : Option ParsedUrl := parseU s.data

def removeKey (k : List Char) : List (List Char × List Char) → List (List Char × List Char)
  | [] => []
  | p :: rest => if p.1 = k then removeKey k rest else p :: removeKey k rest

def setParam : List (List Char × List Char) → List Char → List Char → List (List Char × List Char)
  | [], k, v => [(k, v)]
  | p :: rest, k, v => if p.1 = k then (k, v) :: removeKey k rest else p :: setParam rest k v

def countKey (k : List Char) : List (List Char × List Char) → Nat
  | [] => 0
  | p :: rest => (if p.1 = k then 1 else 0) + countKey k rest

def getKey (k : List Char) : List (List Char × List Char) → Option (List Char)
  | [] => none
  | p :: rest => if p.1 = k then some p.2 else getKey k rest

def keepKeys (P : List Char → Bool) : List (List Char × List Char) → List (List Char × List Char)
  | [] => []
  | p :: rest => if P p.1 then p :: keepKeys P rest else keepKeys P rest

def keyOk (k : List Char) : Bool := noChar '&' k && noChar '=' k && noChar '#' k

def valOk (v : List Char) : Bool := noChar '&' v && noChar '#' v

def pairOk (p : List Char × List Char) : Bool := keyOk p.1 && valOk p.2

def queryOk : List (List Char × List Char) → Bool
  | [] => true
  | p :: rest => pairOk p && queryOk rest

def baseOk (b : List Char) : Bool := containsSub schemeMark b && noChar '?' b && noChar '#' b

def urlOk (u : ParsedUrl) : Bool := baseOk u.base && queryOk u.query

/-! src/lib/utm.ts -/

inductive OutputType
  | newsletter
  | social
  | email
deriving DecidableEq

def outputTypeName : OutputType → String
  | OutputType.newsletter => "newsletter"
  | OutputType.social => "social"
  | OutputType.email => "email"

def UTM_SOURCE : String := "blog2buzz"

def UTM_CAMPAIGN : String := "content-repurpose"

def trackedQuery (q : List (List Char × List Char)) (medium : OutputType)
    (overrides : List (String × String)) : List (List Char × List Char) :=
  overrides.foldl (fun acc kv => setParam acc kv.1.data kv.2.data)
    (setParam (setParam (setParam q "utm_source".data UTM_SOURCE.data)
      "utm_medium".data (outputTypeName medium).data) "utm_campaign".data UTM_CAMPAIGN.data)

/-- `buildTrackedUrl` from src/lib/utm.ts: parse `href` (a throw on an
unparseable URL is modelled as `none`), set the three UTM params with
`URLSearchParams.set`, apply caller overrides on top, serialize. -/
def buildTrackedUrl (href : String) (medium : OutputType)
    (overrides : List (String × String)) : Option String :=
  match parseUrl href with
  | none => none
  | some u => some (String.mk (serializeU { u with query := trackedQuery u.query medium overrides }))

/-! src/types/conversion.ts -/

inductive SourceType
  | url
  | text
deriving DecidableEq

inductive SocialPlatform
  | twitter
  | linkedin
  | instagram
deriving DecidableEq

inductive Tone
  | conversational
  | professional
  | playful
deriving DecidableEq

def toneName : Tone → String
  | Tone.conversational => "conversational"
  | Tone.professional => "professional"
  | Tone.playful => "playful"

structure BlogMetadata where
  title : Option String
  author : Option String
  canonicalUrl : String
  wordCount : Option Nat
  excerpt : Option String
deriving DecidableEq

/-! src/lib/extract.ts: the canonical URL resolver. The external WHATWG
resolution `new URL(href, base).toString()` is a library call, kept
abstract as a parameter `res` returning `none` when the constructor
throws. JavaScript truthiness on an optional string field: `none` and
the empty string are falsy. -/

inductive CanonicalSource
  | link
  | og
  | twitter
  | input
deriving DecidableEq

structure CanonicalResult where
  href : String
  source : CanonicalSource
deriving DecidableEq

def truthy : Option String → Bool
  | none => false
  | some s => !(s == "")

def resolveCanonical (res : String → String → Option String) (url : String)
    (href : Option String) : String :=
  if truthy href then
    match href with
    | some h => (res h url).getD url
    | none => url
  else url

structure DocCanonical where
  linkHref : Option String
  ogUrl : Option String
  twitterUrl : Option String

def getCanonical (res : String → String → Option String) (doc : DocCanonical)
    (url : String) : CanonicalResult :=
  if truthy doc.linkHref then
    { href := resolveCanonical res url doc.linkHref, source := CanonicalSource.link }
  else if truthy doc.ogUrl then
    { href := resolveCanonical res url doc.ogUrl, source := CanonicalSource.og }
  else if truthy doc.twitterUrl then
    { href := resolveCanonical res url doc.twitterUrl, source := CanonicalSource.twitter }
  else
    { href := url, source := CanonicalSource.input }

/-! src/lib/prompts.ts. The tone lookup is a JavaScript object indexed
by the runtime string, so it is modelled on raw strings: a miss is
`none` (undefined). An undefined or empty line is falsy and dropped by
the `.filter(Boolean)` over the shared-context lines. -/

def toneGuidance (t : String) : Option String :=
  if t = "conversational" then
    some "Adopt a warm, conversational tone with clear transitions and short paragraphs."
  else if t = "professional" then
    some "Use a confident, professional voice with crisp sentences and thoughtful structure."
  else if t = "playful" then
    some "Lean into an upbeat, playful tone that still communicates the core ideas clearly."
  else none

def outputToneFallback : String :=
  "Default to a friendly, confident tone that is easy to skim."

def SOCIAL_PLATFORM_DESCRIPTIONS : SocialPlatform → String
  | SocialPlatform.twitter =>
    "Create a concise thread style update using plain language, emojis, and up to two relevant hashtags. Keep each Tweet under 250 characters."
  | SocialPlatform.linkedin =>
    "Write a short LinkedIn caption that highlights the key takeaway and invites discussion. Use 2-3 professional yet friendly sentences and add one relevant hashtag."
  | SocialPlatform.instagram =>
    "Draft an Instagram caption with an engaging hook, a short summary in 2-3 sentences, and a strong call-to-action emoji. Include 2-3 short hashtags."

def platformUpper : SocialPlatform → String
  | SocialPlatform.twitter => "TWITTER"
  | SocialPlatform.linkedin => "LINKEDIN"
  | SocialPlatform.instagram => "INSTAGRAM"

def buildBacklinkInstruction (metadata : BlogMetadata) : String :=
  String.mk (replaceFirstL "\">".data "\" data-utm=\"true\">".data
    ("<a href=\"" ++ metadata.canonicalUrl ++ "\" rel=\"noopener noreferrer\">Read the full article</a>").data)

def toneLine (tone : String) : String :=
  if tone ≠ "" then (toneGuidance tone).getD "" else outputToneFallback

def sharedLines (metadata : BlogMetadata) (tone : String) (backlinkAnchor : String) : List String :=
  [ "You are Blog2Buzz, an AI writing assistant that repurposes blog posts into channel-ready formats.",
    "The generated content must stand alone, read naturally, and entice readers to click back to the source article.",
    "Original article title: " ++ metadata.title.getD "Untitled" ++ ".",
    match metadata.author with
    | some a => if a ≠ "" then "Primary author: " ++ a ++ "." else ""
    | none => "",
    match metadata.excerpt with
    | some e => if e ≠ "" then "Key excerpt from the article: " ++ e else ""
    | none => "",
    "Total word count (approximate): "
      ++ (match metadata.wordCount with | some n => toString n | none => "unknown") ++ ".",
    toneLine tone,
    "Always embed this backlink exactly once in the most natural spot: " ++ backlinkAnchor ++ ".",
    "Do not invent facts. If a detail is missing in the source text, skip it." ]

def sharedContextStr (metadata : BlogMetadata) (tone : String) (backlinkAnchor : String) : String :=
  String.intercalate "\n" ((sharedLines metadata tone backlinkAnchor).filter (fun l => l != ""))

def DEFAULT_PROMPT_PLATFORMS : List SocialPlatform :=
  [SocialPlatform.twitter, SocialPlatform.linkedin, SocialPlatform.instagram]

def platformGuidanceStr (platforms : List SocialPlatform) : String :=
  String.intercalate "\n\n" (platforms.map (fun p =>
    "For " ++ platformUpper p ++ ":\n" ++ SOCIAL_PLATFORM_DESCRIPTIONS p))

/-- `buildPrompt` from src/lib/prompts.ts. The optional parameters carry
their TypeScript destructuring defaults: an absent `platforms` becomes
the three-platform list, an absent `tone` becomes "conversational". -/
def buildPrompt (outputType : OutputType) (blogText : String) (metadata : BlogMetadata)
    (platformsArg : Option (List SocialPlatform)) (toneArg : Option String) : String :=
  let platforms := platformsArg.getD DEFAULT_PROMPT_PLATFORMS
  let tone := toneArg.getD "conversational"
  let backlinkAnchor := buildBacklinkInstruction metadata
  let sharedContext := sharedContextStr metadata tone backlinkAnchor
  match outputType with
  | OutputType.newsletter =>
    sharedContext
      ++ "\n\nGenerate HTML for a newsletter update that includes:\n- A warm intro framing why this article matters.\n- 2-3 short paragraphs that summarize the key insights without repeating the entire article.\n- A bulleted list of 3 sharp takeaways or action items.\n- A closing sentence that nudges readers to explore more, followed immediately by the backlink anchor.\n\nFormatting rules:\n- Use semantic HTML (<article>, <h2>, <p>, <ul>, <li>, <strong>).\n- Keep paragraphs under 60 words.\n- Never include placeholder text.\n\nBacklink anchor to insert: "
      ++ backlinkAnchor ++ "\n\nSource article content:\n" ++ blogText
  | OutputType.email =>
    sharedContext
      ++ "\n\nGenerate HTML for a marketing email snippet ready to drop into a campaign tool. Requirements:\n- Subject line suggestion in a <p data-role=\"subject\"> element (max 55 characters).\n- Preheader suggestion in a <p data-role=\"preheader\"> element (max 90 characters).\n- Body content inside a <section data-role=\"body\"> wrapping:\n  - A friendly greeting.\n  - 2 concise paragraphs covering the core narrative.\n  - A short bulleted or numbered list of the main highlights.\n  - A single call-to-action button (<a> styled inline) that uses the backlink anchor.\n- An optional postscript (<p data-role=\"ps\">) if there\x27s a timely hook.\n\nFavor approachable, professional language that still feels personal.\n\nBacklink anchor to insert inside the CTA button: "
      ++ backlinkAnchor ++ "\n\nSource article content:\n" ++ blogText
  | OutputType.social =>
    sharedContext
      ++ "\n\nGenerate HTML that contains a <section> element for each requested platform. Each section must have:\n- data-platform attribute set to the platform name (twitter, linkedin, instagram).\n- A <h3> heading naming the platform.\n- A <p> with the suggested copy.\n- The backlink anchor appended at the end of the copy, using natural connective text (e.g., \"Read more\").\n\nPlatform-specific rules:\n"
      ++ platformGuidanceStr platforms
      ++ "\n\nAlways keep emoji use relevant and tasteful.\nNever repeat the exact same wording across platforms.\n\nBacklink anchor to include in each section: "
      ++ backlinkAnchor ++ "\n\nSource article content:\n" ++ blogText

/-! src/app/api/convert/route.ts -/

def btChar : Char := '\x60'

def zwChar : Char := '\u200B'

def isWS (c : Char) : Bool :=
  if c = ' ' then true else if c = '\t' then true else if c = '\n' then true
  else if c = '\r' then true else false

def trimL (l : List Char) : List Char :=
  ((l.dropWhile isWS).reverse.dropWhile isWS).reverse

/-- Global, left-to-right replacement of the case-insensitive pattern
of three backticks followed by "html" with the empty string
(the regex with the g and i flags in `sanitizeModelHtml`). -/
def removeFenceHtml : List Char → List Char
  | b1 :: b2 :: b3 :: h :: t :: m :: l :: rest =>
    if b1 = btChar ∧ b2 = btChar ∧ b3 = btChar ∧ h.toLower = 'h' ∧ t.toLower = 't'
        ∧ m.toLower = 'm' ∧ l.toLower = 'l' then
      removeFenceHtml rest
    else
      b1 :: removeFenceHtml (b2 :: b3 :: h :: t :: m :: l :: rest)
  | c :: rest => c :: removeFenceHtml rest
  | [] => []

/-- Global replacement of three backticks with the empty string. -/
def removeFence : List Char → List Char
  | b1 :: b2 :: b3 :: rest =>
    if b1 = btChar ∧ b2 = btChar ∧ b3 = btChar then removeFence rest
    else b1 :: removeFence (b2 :: b3 :: rest)
  | c :: rest => c :: removeFence rest
  | [] => []

def removeZW (l : List Char) : List Char :=
  l.filter (fun c => !(c == zwChar))

/-- The cleaning stage of `sanitizeModelHtml`: strip the html code
fences, then bare fences, then zero-width spaces, then trim. -/
def cleanModel (output : String) : String :=
  String.mk (trimL (removeZW (removeFence (removeFenceHtml output.data))))

def PLACEHOLDER : String :=
  "<p>We weren\x27t able to generate this output. Please try again.</p>"

def backlinkPara (canonicalUrl : String) : String :=
  "\n<p><a href=\"" ++ canonicalUrl ++ "\">Read the full article</a></p>"

def sanitizeModelHtml (output canonicalUrl : String) : String :=
  let cleaned := cleanModel output
  if cleaned = "" then PLACEHOLDER
  else if strContains cleaned canonicalUrl = false then cleaned ++ backlinkPara canonicalUrl
  else cleaned

structure ConvertRequest where
  sourceType : SourceType
  source : String
  outputTypes : List OutputType
  socialPlatforms : Option (List SocialPlatform)
  tone : Option Tone
  canonicalUrl : Option String
  articleTitle : Option String
  articleAuthor : Option String
deriving DecidableEq

def isValidHttpUrl (s : String) : Bool := (parseUrl s).isSome

/-- REQUEST_SCHEMA: the zod issue messages, in schema key order. The
enum-typed fields cannot fail in the typed embedding. -/
def validateRequest (req : ConvertRequest) : List String :=
  (if req.source = "" then ["Provide a blog URL or the article text."] else [])
    ++ (if req.outputTypes = [] then ["Select at least one output format."] else [])
    ++ (match req.canonicalUrl with
        | some c => if isValidHttpUrl c then [] else ["Invalid url"]
        | none => [])

def DEFAULT_PLATFORMS : List SocialPlatform :=
  [SocialPlatform.twitter, SocialPlatform.linkedin, SocialPlatform.instagram]

def DEFAULT_TONE : Tone := Tone.conversational

structure ExtractedArticle where
  content : String
  metadata : BlogMetadata
deriving DecidableEq

/-- The environment-supplied configuration the route reads. -/
structure Env where
  geminiApiKey : Option String
  supabaseConfigured : Bool

/-- The external collaborators: article extraction, the generative
model (per output type and prompt), and the error the store insert
reports in its result object, when any. -/
structure Effects where
  extract : String → Except String ExtractedArticle
  generate : OutputType → String → Except String String
  persistError : Option String

inductive ConvertResponse
  | ok (outputs : List (OutputType × String)) (metadata : BlogMetadata) (rawContent : String)
  | badRequest (error : String) (details : Option (List String))
  | serverError (error : String)
deriving DecidableEq

def missingCanonicalMsg : String :=
  "Provide the original blog URL so we can add a backlink when pasting raw text."

def apiKeyMsg : String :=
  "Gemini API key is missing. Add GEMINI_API_KEY to your environment."

def persistFailLog : String := "[convert] Failed to persist conversion"

def catchLog : String := "[convert] Error"

/-- `persistConversion`: with no configured store it returns at once;
a reported insert error is logged and swallowed. The returned list is
the console-error log. -/
def persistConversion (supabaseConfigured : Bool) (insertError : Option String) : List String :=
  if supabaseConfigured then
    match insertError with
    | some _ => [persistFailLog]
    | none => []
  else []

def deduplicate (seen : List SocialPlatform) : List SocialPlatform → List SocialPlatform
  | [] => []
  | p :: rest => if p ∈ seen then deduplicate seen rest else p :: deduplicate (p :: seen) rest

def resolvePlatforms (req : ConvertRequest) : List SocialPlatform :=
  match req.socialPlatforms with
  | some ps => if ps = [] then DEFAULT_PLATFORMS else deduplicate [] ps
  | none => DEFAULT_PLATFORMS

def routeTone (req : ConvertRequest) : Option String :=
  some (toneName (match req.tone with | some t => t | none => DEFAULT_TONE))

def applyOverrides (req : ConvertRequest) (metadata : BlogMetadata) : BlogMetadata :=
  { metadata with
    title := match req.articleTitle with | some t => some t | none => metadata.title,
    author := match req.articleAuthor with | some a => some a | none => metadata.author }

def textMetadata (req : ConvertRequest) (cu : String) : BlogMetadata :=
  { title := req.articleTitle, author := req.articleAuthor, canonicalUrl := cu,
    wordCount := none, excerpt := none }

/-- The JavaScript object write `outputs[outputType] = html`. -/
def setOutput : List (OutputType × String) → OutputType → String → List (OutputType × String)
  | [], t, h => [(t, h)]
  | p :: rest, t, h => if p.1 = t then (t, h) :: rest else p :: setOutput rest t h

/-- The per-output-type loop of POST: track the canonical URL, build
the prompt, generate, sanitize. A generation failure aborts the loop
with the thrown message; an unparseable canonical URL is the URL
constructor throw inside `buildTrackedUrl`. -/
def runOutputs (gen : OutputType → String → Except String String) (content : String)
    (metadata : BlogMetadata) (platforms : List SocialPlatform) (tone : Option String)
    (acc : List (OutputType × String)) :
    List OutputType → Except String (List (OutputType × String))
  | [] => Except.ok acc
  | t :: rest =>
    match buildTrackedUrl metadata.canonicalUrl t [] with
    | none => Except.error "Invalid URL"
    | some tracked =>
      match gen t (buildPrompt t content { metadata with canonicalUrl := tracked }
          (some platforms) tone) with
      | Except.error e => Except.error e
      | Except.ok text =>
        runOutputs gen content metadata platforms tone
          (setOutput acc t (sanitizeModelHtml text tracked)) rest

/-- The POST handler of src/app/api/convert/route.ts on an
already-JSON-parsed body. The second component is the console-error
log: thrown errors are caught at the boundary and logged, the
persistence log comes from `persistConversion`. -/
def POST (env : Env) (eff : Effects) (req : ConvertRequest) : ConvertResponse × List String :=
  if validateRequest req = [] then
    match
      (match req.sourceType with
       | SourceType.url =>
         match eff.extract req.source with
         | Except.ok article => Except.ok (article.content, article.metadata)
         | Except.error msg => Except.error (ConvertResponse.serverError msg, [catchLog])
       | SourceType.text =>
         match req.canonicalUrl with
         | none => Except.error (ConvertResponse.badRequest missingCanonicalMsg none, [])
         | some cu => Except.ok (req.source, textMetadata req cu)) with
    | Except.error r => r
    | Except.ok (content, metadata0) =>
      let metadata := applyOverrides req metadata0
      match env.geminiApiKey with
      | none => (ConvertResponse.serverError apiKeyMsg, [catchLog])
      | some _ =>
        match runOutputs eff.generate content metadata (resolvePlatforms req)
            (routeTone req) [] req.outputTypes with
        | Except.error e => (ConvertResponse.serverError e, [catchLog])
        | Except.ok outputs =>
          (ConvertResponse.ok outputs metadata content,
            persistConversion env.supabaseConfigured eff.persistError)
  else (ConvertResponse.badRequest "Invalid input." (some (validateRequest req)), [])

/-! Utility lemmas. -/

theorem containsSub_nil_left (h : List Char) : containsSub [] h = true := by
  cases h <;> simp [containsSub, leadsWith]

theorem leadsWith_append_self (a b : List Char) : leadsWith a (a ++ b) = true := by
  induction a with
  | nil => rfl
  | cons x xs ih => simp [leadsWith, ih]

theorem leadsWith_of_append (a b h : List Char) (hl : leadsWith (a ++ b) h = true) :
    leadsWith a h = true := by
  induction a generalizing h with
  | nil => rfl
  | cons x xs ih =>
    cases h with
    | nil => simp [leadsWith] at hl
    | cons y ys =>
      by_cases hxy : x = y
      · simp only [List.cons_append, leadsWith, if_pos hxy] at hl ⊢
        exact ih ys hl
      · simp [leadsWith, hxy] at hl

theorem leadsWith_mem (n h : List Char) (hl : leadsWith n h = true) : ∀ x ∈ n, x ∈ h := by
  induction n generalizing h with
  | nil => intro x hx; cases hx
  | cons a as ih =>
    cases h with
    | nil => simp [leadsWith] at hl
    | cons b bs =>
      by_cases hab : a = b
      · simp only [leadsWith, if_pos hab] at hl
        intro x hx
        rcases List.mem_cons.mp hx with hxa | hxs
        · exact List.mem_cons.mpr (Or.inl (hxa.trans hab))
        · exact List.mem_cons.mpr (Or.inr (ih bs hl x hxs))
      · simp [leadsWith, hab] at hl

theorem containsSub_mem (n h : List Char) (hc : containsSub n h = true) : ∀ x ∈ n, x ∈ h := by
  induction h with
  | nil =>
    cases n with
    | nil => intro x hx; cases hx
    | cons a as => simp [containsSub] at hc
  | cons b bs ih =>
    rcases Bool.or_eq_true_iff.mp hc with hlead | hrest
    · exact leadsWith_mem n (b :: bs) hlead
    · intro x hx; exact List.mem_cons.mpr (Or.inr (ih hrest x hx))

theorem containsSub_append_mid (pre n suf : List Char) :
    containsSub n (pre ++ (n ++ suf)) = true := by
  induction pre with
  | nil =>
    cases n with
    | nil => simpa using containsSub_nil_left suf
    | cons c cs =>
      simp only [List.nil_append, List.cons_append, containsSub]
      have : leadsWith (c :: cs) ((c :: cs) ++ suf) = true := leadsWith_append_self _ _
      simp only [List.cons_append] at this
      simp [this]
  | cons p ps ih => simp [containsSub, ih]

theorem containsSub_of_append (a b h : List Char) (hc : containsSub (a ++ b) h = true) :
    containsSub a h = true := by
  induction h with
  | nil =>
    simp only [containsSub, List.isEmpty_iff] at hc ⊢
    rcases List.append_eq_nil.mp hc with ⟨ha, _⟩
    exact ha
  | cons y ys ih =>
    simp only [containsSub, Bool.or_eq_true_iff] at hc ⊢
    rcases hc with hlead | hrest
    · exact Or.inl (leadsWith_of_append a b _ hlead)
    · exact Or.inr (ih hrest)

theorem noChar_iff (c : Char) (l : List Char) : noChar c l = true ↔ c ∉ l := by
  induction l with
  | nil => simp [noChar]
  | cons x xs ih =>
    by_cases hx : x = c
    · subst hx; simp [noChar]
    · simp [noChar, hx, ih, Ne.symm hx]

theorem noChar_append (c : Char) (a b : List Char) :
    noChar c (a ++ b) = (noChar c a && noChar c b) := by
  induction a with
  | nil => simp [noChar]
  | cons x xs ih =>
    by_cases hx : x = c
    · simp [noChar, hx]
    · simp [noChar, hx, ih]

theorem containsSub_false_of_noChar (c : Char) (cs h : List Char) (hn : noChar c h = true) :
    containsSub (c :: cs) h = false := by
  cases hc : containsSub (c :: cs) h
  · rfl
  · exact absurd ((noChar_iff c h).mp hn) (fun hcn =>
      hcn (containsSub_mem _ _ hc c (List.mem_cons_self c cs)))

theorem splitFirst_not_mem (c : Char) (s : List Char) : c ∉ (splitFirst c s).1 := by
  induction s with
  | nil => simp [splitFirst]
  | cons x xs ih =>
    by_cases hx : x = c
    · simp [splitFirst, hx]
    · simp only [splitFirst, if_neg hx, List.mem_cons, not_or]
      exact ⟨fun h => hx h.symm, ih⟩

theorem splitFirst_fst_sub (c : Char) (s : List Char) : ∀ x ∈ (splitFirst c s).1, x ∈ s := by
  induction s with
  | nil => simp [splitFirst]
  | cons y ys ih =>
    by_cases hy : y = c
    · simp [splitFirst, hy]
    · intro x hx
      simp only [splitFirst, if_neg hy] at hx
      rcases List.mem_cons.mp hx with hxy | hxs
      · exact List.mem_cons.mpr (Or.inl hxy)
      · exact List.mem_cons.mpr (Or.inr (ih x hxs))

theorem splitFirst_eq_some (c : Char) (s r : List Char) (h : (splitFirst c s).2 = some r) :
    s = (splitFirst c s).1 ++ c :: r := by
  induction s generalizing r with
  | nil => simp [splitFirst] at h
  | cons y ys ih =>
    by_cases hy : y = c
    · simp only [splitFirst, if_pos hy] at h ⊢
      cases h; simpa using hy
    · simp only [splitFirst, if_neg hy] at h ⊢
      rw [List.cons_append]
      exact congrArg (y :: ·) (ih r h)

theorem splitFirst_snd_sub (c : Char) (s r : List Char) (h : (splitFirst c s).2 = some r) :
    ∀ x ∈ r, x ∈ s := by
  intro x hx
  rw [splitFirst_eq_some c s r h]
  exact List.mem_append.mpr (Or.inr (List.mem_cons.mpr (Or.inr hx)))

theorem splitFirst_no (c : Char) (s : List Char) (h : noChar c s = true) :
    splitFirst c s = (s, none) := by
  induction s with
  | nil => rfl
  | cons x xs ih =>
    have hx : ¬ x = c := by
      intro he; subst he; simp [noChar] at h
    simp only [noChar, if_neg hx] at h
    simp [splitFirst, hx, ih h]

theorem splitFirst_append (c : Char) (a b : List Char) (h : noChar c a = true) :
    splitFirst c (a ++ c :: b) = (a, some b) := by
  induction a with
  | nil => simp [splitFirst]
  | cons x xs ih =>
    have hx : ¬ x = c := by
      intro he; subst he; simp [noChar] at h
    simp only [noChar, if_neg hx] at h
    simp [splitFirst, hx, ih h]

theorem splitAll_ne_nil (c : Char) (s : List Char) : splitAll c s ≠ [] := by
  induction s with
  | nil => simp [splitAll]
  | cons x xs ih =>
    by_cases hx : x = c
    · simp [splitAll, hx]
    · simp only [splitAll, if_neg hx]
      cases hs : splitAll c xs with
      | nil => simp
      | cons h t => simp

theorem splitAll_no (c : Char) (a : List Char) (h : noChar c a = true) :
    splitAll c a = [a] := by
  induction a with
  | nil => rfl
  | cons x xs ih =>
    have hx : ¬ x = c := by
      intro he; subst he; simp [noChar] at h
    simp only [noChar, if_neg hx] at h
    simp [splitAll, hx, ih h]

theorem splitAll_append (c : Char) (a b : List Char) (h : noChar c a = true) :
    splitAll c (a ++ c :: b) = a :: splitAll c b := by
  induction a with
  | nil => simp [splitAll]
  | cons x xs ih =>
    have hx : ¬ x = c := by
      intro he; subst he; simp [noChar] at h
    simp only [noChar, if_neg hx] at h
    simp [splitAll, hx, ih h]

theorem splitAll_seg_not_mem (c : Char) (s : List Char) :
    ∀ seg ∈ splitAll c s, c ∉ seg := by
  induction s with
  | nil =>
    intro seg hseg
    simp only [splitAll, List.mem_singleton] at hseg
    subst hseg; simp
  | cons x xs ih =>
    by_cases hx : x = c
    · intro seg hseg
      simp only [splitAll, if_pos hx, List.mem_cons] at hseg
      rcases hseg with h0 | hrest
      · subst h0; simp
      · exact ih seg hrest
    · intro seg hseg
      simp only [splitAll, if_neg hx] at hseg
      cases hs : splitAll c xs with
      | nil => exact absurd hs (splitAll_ne_nil c xs)
      | cons h t =>
        rw [hs] at hseg
        rcases List.mem_cons.mp hseg with h0 | hrest
        · subst h0
          intro hmem
          rcases List.mem_cons.mp hmem with hcx | hch
          · exact hx hcx.symm
          · exact ih h (hs ▸ List.mem_cons_self h t) hch
        · exact ih seg (hs ▸ List.mem_cons.mpr (Or.inr hrest))

theorem splitAll_seg_sub (c : Char) (s : List Char) :
    ∀ seg ∈ splitAll c s, ∀ x ∈ seg, x ∈ s := by
  induction s with
  | nil =>
    intro seg hseg
    simp only [splitAll, List.mem_singleton] at hseg
    subst hseg; simp
  | cons y ys ih =>
    by_cases hy : y = c
    · intro seg hseg
      simp only [splitAll, if_pos hy, List.mem_cons] at hseg
      rcases hseg with h0 | hrest
      · subst h0; simp
      · intro x hx
        exact List.mem_cons.mpr (Or.inr (ih seg hrest x hx))
    · intro seg hseg
      simp only [splitAll, if_neg hy] at hseg
      cases hs : splitAll c ys with
      | nil => exact absurd hs (splitAll_ne_nil c ys)
      | cons h t =>
        rw [hs] at hseg
        rcases List.mem_cons.mp hseg with h0 | hrest
        · subst h0
          intro x hx
          rcases List.mem_cons.mp hx with hxy | hxh
          · exact List.mem_cons.mpr (Or.inl hxy)
          · exact List.mem_cons.mpr
              (Or.inr (ih h (hs ▸ List.mem_cons_self h t) x hxh))
        · intro x hx
          exact List.mem_cons.mpr
            (Or.inr (ih seg (hs ▸ List.mem_cons.mpr (Or.inr hrest)) x hx))

/-! Algebra of `setParam` (URLSearchParams.set). -/

theorem removeKey_countKey_self (k : List Char) (l : List (List Char × List Char)) :
    countKey k (removeKey k l) = 0 := by
  induction l with
  | nil => rfl
  | cons p rest ih =>
    by_cases hp : p.1 = k
    · simp [removeKey, hp, ih]
    · simp [removeKey, countKey, hp, ih]

theorem removeKey_countKey_other (k k' : List Char) (hkk : k' ≠ k)
    (l : List (List Char × List Char)) :
    countKey k' (removeKey k l) = countKey k' l := by
  have hkk' : ¬ k = k' := fun h => hkk h.symm
  induction l with
  | nil => rfl
  | cons p rest ih =>
    by_cases hp : p.1 = k
    · simp [removeKey, countKey, hp, hkk', ih]
    · simp [removeKey, countKey, hp, ih]

theorem removeKey_getKey_other (k k' : List Char) (hkk : k' ≠ k)
    (l : List (List Char × List Char)) :
    getKey k' (removeKey k l) = getKey k' l := by
  have hkk' : ¬ k = k' := fun h => hkk h.symm
  induction l with
  | nil => rfl
  | cons p rest ih =>
    by_cases hp : p.1 = k
    · simp [removeKey, getKey, hp, hkk', ih]
    · by_cases hp' : p.1 = k'
      · simp [removeKey, getKey, hp, hp', hkk]
      · simp [removeKey, getKey, hp, hp', ih]

theorem removeKey_of_countKey_zero (k : List Char) (l : List (List Char × List Char))
    (h : countKey k l = 0) : removeKey k l = l := by
  induction l with
  | nil => rfl
  | cons p rest ih =>
    by_cases hp : p.1 = k
    · simp [countKey, hp] at h
    · simp only [countKey, if_neg hp, Nat.zero_add] at h
      simp [removeKey, hp, ih h]

theorem setParam_countKey_self (l : List (List Char × List Char)) (k v : List Char) :
    countKey k (setParam l k v) = 1 := by
  induction l with
  | nil => simp [setParam, countKey]
  | cons p rest ih =>
    by_cases hp : p.1 = k
    · simp [setParam, countKey, hp, removeKey_countKey_self]
    · simp [setParam, countKey, hp, ih]

theorem setParam_getKey_self (l : List (List Char × List Char)) (k v : List Char) :
    getKey k (setParam l k v) = some v := by
  induction l with
  | nil => simp [setParam, getKey]
  | cons p rest ih =>
    by_cases hp : p.1 = k
    · simp [setParam, getKey, hp]
    · simp [setParam, getKey, hp, ih]

theorem setParam_countKey_other (l : List (List Char × List Char)) (k v k' : List Char)
    (hkk : k' ≠ k) : countKey k' (setParam l k v) = countKey k' l := by
  have hkk' : ¬ k = k' := fun h => hkk h.symm
  induction l with
  | nil => simp [setParam, countKey, hkk']
  | cons p rest ih =>
    by_cases hp : p.1 = k
    · simp [setParam, countKey, hp, hkk', removeKey_countKey_other k k' hkk]
    · simp [setParam, countKey, hp, ih]

theorem setParam_getKey_other (l : List (List Char × List Char)) (k v k' : List Char)
    (hkk : k' ≠ k) : getKey k' (setParam l k v) = getKey k' l := by
  have hkk' : ¬ k = k' := fun h => hkk h.symm
  induction l with
  | nil => simp [setParam, getKey, hkk']
  | cons p rest ih =>
    by_cases hp : p.1 = k
    · simp [setParam, getKey, hp, hkk', removeKey_getKey_other k k' hkk]
    · by_cases hp' : p.1 = k'
      · simp [setParam, getKey, hp, hp', hkk]
      · simp [setParam, getKey, hp, hp', ih]

theorem setParam_stable (l : List (List Char × List Char)) (k v : List Char)
    (hc : countKey k l = 1) (hg : getKey k l = some v) : setParam l k v = l := by
  induction l with
  | nil => simp [countKey] at hc
  | cons p rest ih =>
    by_cases hp : p.1 = k
    · simp only [getKey, if_pos hp] at hg
      simp only [countKey, if_pos hp] at hc
      have hrest : countKey k rest = 0 := by omega
      have hpv : p = (k, v) := by
        cases p
        simp only at hp
        cases hg
        simp [hp]
      simp [setParam, hp, removeKey_of_countKey_zero k rest hrest, hpv]
    · simp only [getKey, if_neg hp] at hg
      simp only [countKey, if_neg hp, Nat.zero_add] at hc
      simp [setParam, hp, ih hc hg]

theorem setParam_ne_nil (l : List (List Char × List Char)) (k v : List Char) :
    setParam l k v ≠ [] := by
  cases l with
  | nil => simp [setParam]
  | cons p rest =>
    by_cases hp : p.1 = k <;> simp [setParam, hp]

theorem keepKeys_removeKey (P : List Char → Bool) (k : List Char) (hP : P k = false)
    (l : List (List Char × List Char)) :
    keepKeys P (removeKey k l) = keepKeys P l := by
  induction l with
  | nil => rfl
  | cons p rest ih =>
    by_cases hp : p.1 = k
    · simp [removeKey, keepKeys, hp, hP, ih]
    · simp only [removeKey, if_neg hp, keepKeys]
      rw [ih]

theorem keepKeys_setParam (P : List Char → Bool) (k v : List Char) (hP : P k = false)
    (l : List (List Char × List Char)) :
    keepKeys P (setParam l k v) = keepKeys P l := by
  induction l with
  | nil => simp [setParam, keepKeys, hP]
  | cons p rest ih =>
    by_cases hp : p.1 = k
    · have hPp : P p.1 = false := by rw [hp]; exact hP
      simp [setParam, keepKeys, hp, hP, hPp, keepKeys_removeKey P k hP]
    · simp only [setParam, if_neg hp, keepKeys]
      rw [ih]

theorem removeKey_queryOk (k : List Char) (l : List (List Char × List Char))
    (h : queryOk l = true) : queryOk (removeKey k l) = true := by
  induction l with
  | nil => rfl
  | cons p rest ih =>
    simp only [queryOk, Bool.and_eq_true] at h
    by_cases hp : p.1 = k
    · simp [removeKey, hp, ih h.2]
    · simp [removeKey, queryOk, hp, h.1, ih h.2]

theorem setParam_queryOk (l : List (List Char × List Char)) (k v : List Char)
    (hl : queryOk l = true) (hkv : pairOk (k, v) = true) :
    queryOk (setParam l k v) = true := by
  induction l with
  | nil => simp [setParam, queryOk, hkv]
  | cons p rest ih =>
    simp only [queryOk, Bool.and_eq_true] at hl
    by_cases hp : p.1 = k
    · simp [setParam, queryOk, hp, hkv, removeKey_queryOk k rest hl.2]
    · simp [setParam, queryOk, hp, hl.1, ih hl.2]

/-! Parse/serialize round trip for well-formed URLs. -/

theorem noChar_of_sub (c : Char) (a s : List Char) (hsub : ∀ x ∈ a, x ∈ s)
    (hs : noChar c s = true) : noChar c a = true := by
  rw [noChar_iff] at hs ⊢
  exact fun hc => hs (hsub c hc)

theorem queryOk_forall (l : List (List Char × List Char)) (h : queryOk l = true) :
    ∀ p ∈ l, pairOk p = true := by
  induction l with
  | nil => intro p hp; cases hp
  | cons q rest ih =>
    simp only [queryOk, Bool.and_eq_true] at h
    intro p hp
    rcases List.mem_cons.mp hp with h0 | hrest
    · subst h0; exact h.1
    · exact ih h.2 p hrest

theorem queryOk_of_forall (l : List (List Char × List Char))
    (h : ∀ p ∈ l, pairOk p = true) : queryOk l = true := by
  induction l with
  | nil => rfl
  | cons q rest ih =>
    simp only [queryOk, Bool.and_eq_true]
    exact ⟨h q (List.mem_cons_self q rest),
      ih (fun p hp => h p (List.mem_cons.mpr (Or.inr hp)))⟩

theorem pairChars_noChar (c : Char) (hc : c ≠ '=') (p : List Char × List Char)
    (h1 : noChar c p.1 = true) (h2 : noChar c p.2 = true) :
    noChar c (pairChars p) = true := by
  have hc' : ¬ '=' = c := fun h => hc h.symm
  have : noChar c ('=' :: p.2) = true := by simp [noChar, hc', h2]
  simp [pairChars, noChar_append, h1, this]

theorem joinAmp_hash (q : List (List Char × List Char)) (h : queryOk q = true) :
    noChar '#' (joinAmp q) = true := by
  induction q with
  | nil => rfl
  | cons p rest ih =>
    simp only [queryOk, Bool.and_eq_true] at h
    have hpair : noChar '#' (pairChars p) = true := by
      have hk := h.1
      simp only [pairOk, keyOk, valOk, Bool.and_eq_true] at hk
      exact pairChars_noChar '#' (by decide) p hk.1.2 hk.2.2
    cases rest with
    | nil => simpa [joinAmp] using hpair
    | cons q' rest' =>
      have : noChar '#' ('&' :: joinAmp (q' :: rest')) = true := by
        simp [noChar, ih h.2]
      simp [joinAmp, noChar_append, hpair, this]

theorem pairChars_nonEmpty (p : List Char × List Char) : nonEmptyB (pairChars p) = true := by
  cases hp : p.1 with
  | nil => simp [pairChars, hp, nonEmptyB]
  | cons x xs => simp [pairChars, hp, nonEmptyB]

theorem pairChars_noAmp (p : List Char × List Char) (h : pairOk p = true) :
    noChar '&' (pairChars p) = true := by
  simp only [pairOk, keyOk, valOk, Bool.and_eq_true] at h
  exact pairChars_noChar '&' (by decide) p h.1.1.1 h.2.1

theorem parsePair_pairChars (p : List Char × List Char) (h : pairOk p = true) :
    parsePair (pairChars p) = p := by
  simp only [pairOk, keyOk, valOk, Bool.and_eq_true] at h
  have hsplit : splitFirst '=' (p.1 ++ '=' :: p.2) = (p.1, some p.2) :=
    splitFirst_append '=' p.1 p.2 h.1.1.2
  simp [parsePair, pairChars, hsplit]

theorem parseQueryPairs_joinAmp (q : List (List Char × List Char))
    (h : queryOk q = true) : parseQueryPairs (joinAmp q) = q := by
  induction q with
  | nil => rfl
  | cons p rest ih =>
    simp only [queryOk, Bool.and_eq_true] at h
    cases rest with
    | nil =>
      have hsa : splitAll '&' (pairChars p) = [pairChars p] :=
        splitAll_no '&' (pairChars p) (pairChars_noAmp p h.1)
      simp [parseQueryPairs, joinAmp, hsa, pairChars_nonEmpty p,
        parsePair_pairChars p h.1]
    | cons q' rest' =>
      have hsa : splitAll '&' (pairChars p ++ '&' :: joinAmp (q' :: rest'))
          = pairChars p :: splitAll '&' (joinAmp (q' :: rest')) :=
        splitAll_append '&' (pairChars p) (joinAmp (q' :: rest')) (pairChars_noAmp p h.1)
      have ihq := ih h.2
      simp only [parseQueryPairs] at ihq
      simp [parseQueryPairs, joinAmp, hsa, pairChars_nonEmpty p,
        parsePair_pairChars p h.1, ihq]

theorem parsePair_ok (seg : List Char) (hamp : noChar '&' seg = true)
    (hhash : noChar '#' seg = true) : pairOk (parsePair seg) = true := by
  have hkeq : noChar '=' (splitFirst '=' seg).1 = true :=
    (noChar_iff '=' _).mpr (splitFirst_not_mem '=' seg)
  have hkamp : noChar '&' (splitFirst '=' seg).1 = true :=
    noChar_of_sub '&' _ seg (splitFirst_fst_sub '=' seg) hamp
  have hkhash : noChar '#' (splitFirst '=' seg).1 = true :=
    noChar_of_sub '#' _ seg (splitFirst_fst_sub '=' seg) hhash
  cases hv : (splitFirst '=' seg).2 with
  | none => simp [parsePair, pairOk, keyOk, valOk, hv, hkeq, hkamp, hkhash, noChar]
  | some r =>
    have hvamp : noChar '&' r = true :=
      noChar_of_sub '&' r seg (splitFirst_snd_sub '=' seg r hv) hamp
    have hvhash : noChar '#' r = true :=
      noChar_of_sub '#' r seg (splitFirst_snd_sub '=' seg r hv) hhash
    simp [parsePair, pairOk, keyOk, valOk, hv, hkeq, hkamp, hkhash, hvamp, hvhash]

theorem parseQueryPairs_ok (qs : List Char) (hhash : noChar '#' qs = true) :
    queryOk (parseQueryPairs qs) = true := by
  apply queryOk_of_forall
  intro p hp
  simp only [parseQueryPairs, List.mem_map] at hp
  rcases hp with ⟨seg, hseg, hpeq⟩
  have hsegAll : seg ∈ splitAll '&' qs := (List.mem_filter.mp hseg).1
  have hamp : noChar '&' seg = true :=
    (noChar_iff '&' seg).mpr (splitAll_seg_not_mem '&' qs seg hsegAll)
  have hsub : ∀ x ∈ seg, x ∈ qs := splitAll_seg_sub '&' qs seg hsegAll
  have hh : noChar '#' seg = true := noChar_of_sub '#' seg qs hsub hhash
  rw [← hpeq]
  exact parsePair_ok seg hamp hh

theorem parse_wf (s : List Char) (u : ParsedUrl) (h : parseU s = some u) :
    urlOk u = true := by
  simp only [parseU] at h
  split at h
  case isFalse => exact absurd h (by simp)
  case isTrue hc =>
    have hu := Option.some.inj h
    subst hu
    have hbq : noChar '?' (splitFirst '?' (splitFirst '#' s).1).1 = true :=
      (noChar_iff _ _).mpr (splitFirst_not_mem '?' _)
    have hbh : noChar '#' (splitFirst '?' (splitFirst '#' s).1).1 = true :=
      noChar_of_sub '#' _ _ (splitFirst_fst_sub '?' _)
        ((noChar_iff _ _).mpr (splitFirst_not_mem '#' s))
    simp only [urlOk, baseOk, Bool.and_eq_true]
    refine ⟨⟨⟨hc, hbq⟩, hbh⟩, ?_⟩
    cases hq : (splitFirst '?' (splitFirst '#' s).1).2 with
    | none => simp [hq, queryOk]
    | some qs =>
      simp only [hq]
      apply parseQueryPairs_ok
      exact noChar_of_sub '#' qs _ (splitFirst_snd_sub '?' _ qs hq)
        ((noChar_iff _ _).mpr (splitFirst_not_mem '#' s))

theorem serializeU_roundtrip (u : ParsedUrl) (h : urlOk u = true) :
    parseU (serializeU u) = some u := by
  obtain ⟨b, q, f⟩ := u
  simp only [urlOk, baseOk, Bool.and_eq_true] at h
  obtain ⟨⟨⟨hscheme, hbq⟩, hbh⟩, hqok⟩ := h
  cases q with
  | nil =>
    have hsQ : splitFirst '?' b = (b, none) := splitFirst_no '?' b hbq
    cases f with
    | none =>
      have hsH : splitFirst '#' b = (b, none) := splitFirst_no '#' b hbh
      simp [serializeU, parseU, hsH, hsQ, hscheme]
    | some fr =>
      have hsH : splitFirst '#' (b ++ '#' :: fr) = (b, some fr) :=
        splitFirst_append '#' b fr hbh
      simp [serializeU, parseU, hsH, hsQ, hscheme]
  | cons p rest =>
    have hja : noChar '#' (joinAmp (p :: rest)) = true := joinAmp_hash _ hqok
    have hqh : ('?' : Char) ≠ '#' := by decide
    have hmid : noChar '#' (b ++ '?' :: joinAmp (p :: rest)) = true := by
      rw [noChar_append]
      simp [hbh, noChar, hqh, hja]
    have hsQ : splitFirst '?' (b ++ '?' :: joinAmp (p :: rest))
        = (b, some (joinAmp (p :: rest))) := splitFirst_append '?' b _ hbq
    have hpq : parseQueryPairs (joinAmp (p :: rest)) = p :: rest :=
      parseQueryPairs_joinAmp _ hqok
    cases f with
    | none =>
      have hsH : splitFirst '#' (b ++ '?' :: joinAmp (p :: rest))
          = (b ++ '?' :: joinAmp (p :: rest), none) := splitFirst_no '#' _ hmid
      simp [serializeU, parseU, hsH, hsQ, hscheme, hpq]
    | some fr =>
      have hsH : splitFirst '#' ((b ++ '?' :: joinAmp (p :: rest)) ++ '#' :: fr)
          = (b ++ '?' :: joinAmp (p :: rest), some fr) :=
        splitFirst_append '#' _ fr hmid
      have hser : serializeU ⟨b, p :: rest, some fr⟩
          = (b ++ '?' :: joinAmp (p :: rest)) ++ '#' :: fr := by
        simp [serializeU]
      rw [hser]
      simp only [List.append_assoc, List.cons_append] at hsH
      simp [parseU, hsH, hsQ, hscheme, hpq]

/-! Facts about `buildTrackedUrl`. -/

theorem pairOk_utm_source : pairOk ("utm_source".data, UTM_SOURCE.data) = true := by decide

theorem pairOk_utm_medium (c : OutputType) :
    pairOk ("utm_medium".data, (outputTypeName c).data) = true := by
  cases c <;> decide

theorem pairOk_utm_campaign : pairOk ("utm_campaign".data, UTM_CAMPAIGN.data) = true := by
  decide

theorem foldl_setParam_queryOk (ov : List (String × String))
    (hov : ∀ kv ∈ ov, pairOk (kv.1.data, kv.2.data) = true)
    (q : List (List Char × List Char)) (hq : queryOk q = true) :
    queryOk (ov.foldl (fun acc kv => setParam acc kv.1.data kv.2.data) q) = true := by
  induction ov generalizing q with
  | nil => exact hq
  | cons kv rest ih =>
    simp only [List.foldl_cons]
    exact ih (fun p hp => hov p (List.mem_cons.mpr (Or.inr hp)))
      (setParam q kv.1.data kv.2.data)
      (setParam_queryOk q kv.1.data kv.2.data hq (hov kv (List.mem_cons_self kv rest)))

theorem foldl_setParam_ne_nil (ov : List (String × String))
    (q : List (List Char × List Char)) (hq : q ≠ []) :
    ov.foldl (fun acc kv => setParam acc kv.1.data kv.2.data) q ≠ [] := by
  induction ov generalizing q with
  | nil => exact hq
  | cons kv rest ih =>
    simp only [List.foldl_cons]
    exact ih _ (setParam_ne_nil q kv.1.data kv.2.data)

theorem foldl_setParam_keepKeys (P : List Char → Bool) (ov : List (String × String))
    (hov : ∀ kv ∈ ov, P kv.1.data = false) (q : List (List Char × List Char)) :
    keepKeys P (ov.foldl (fun acc kv => setParam acc kv.1.data kv.2.data) q)
      = keepKeys P q := by
  induction ov generalizing q with
  | nil => rfl
  | cons kv rest ih =>
    simp only [List.foldl_cons]
    rw [ih (fun p hp => hov p (List.mem_cons.mpr (Or.inr hp)))]
    exact keepKeys_setParam P kv.1.data kv.2.data (hov kv (List.mem_cons_self kv rest)) q

theorem trackedQuery_queryOk (q : List (List Char × List Char)) (c : OutputType)
    (ov : List (String × String)) (hq : queryOk q = true)
    (hov : ∀ kv ∈ ov, pairOk (kv.1.data, kv.2.data) = true) :
    queryOk (trackedQuery q c ov) = true := by
  unfold trackedQuery
  apply foldl_setParam_queryOk ov hov
  exact setParam_queryOk _ _ _
    (setParam_queryOk _ _ _
      (setParam_queryOk _ _ _ hq pairOk_utm_source) (pairOk_utm_medium c))
    pairOk_utm_campaign

theorem trackedQuery_ne_nil (q : List (List Char × List Char)) (c : OutputType)
    (ov : List (String × String)) : trackedQuery q c ov ≠ [] := by
  unfold trackedQuery
  exact foldl_setParam_ne_nil ov _ (setParam_ne_nil _ _ _)

theorem buildTracked_shape (u : String) (c : OutputType) (ov : List (String × String))
    (t : String) (h : buildTrackedUrl u c ov = some t) :
    ∃ p, parseUrl u = some p
      ∧ t = String.mk (serializeU ⟨p.base, trackedQuery p.query c ov, p.frag⟩) := by
  cases hp : parseUrl u with
  | none => rw [buildTrackedUrl, hp] at h; cases h
  | some p =>
    rw [buildTrackedUrl, hp] at h
    exact ⟨p, rfl, (Option.some.inj h).symm⟩

theorem buildTracked_qmark (u : String) (c : OutputType) (ov : List (String × String))
    (t : String) (h : buildTrackedUrl u c ov = some t) : '?' ∈ t.data := by
  obtain ⟨p, hp, ht⟩ := buildTracked_shape u c ov t h
  subst ht
  show '?' ∈ serializeU ⟨p.base, trackedQuery p.query c ov, p.frag⟩
  cases htq : trackedQuery p.query c ov with
  | nil => exact absurd htq (trackedQuery_ne_nil p.query c ov)
  | cons x rest =>
    simp only [serializeU, htq]
    exact List.mem_append.mpr (Or.inl (List.mem_append.mpr (Or.inr
      (List.mem_cons_self _ _))))

theorem buildTracked_ne_empty (u : String) (c : OutputType) (ov : List (String × String))
    (t : String) (h : buildTrackedUrl u c ov = some t) : t ≠ "" := by
  intro he
  subst he
  exact absurd (buildTracked_qmark u c ov "" h) (by simp)

theorem buildTrackedUrl_of_parse (s : String) (c : OutputType) (ov : List (String × String))
    (p : ParsedUrl) (hp : parseUrl s = some p) :
    buildTrackedUrl s c ov
      = some (String.mk (serializeU ⟨p.base, trackedQuery p.query c ov, p.frag⟩)) := by
  unfold buildTrackedUrl
  rw [hp]

theorem trackedQuery_nil_eq (q0 : List (List Char × List Char)) (c : OutputType) :
    trackedQuery q0 c []
      = setParam (setParam (setParam q0 "utm_source".data UTM_SOURCE.data)
          "utm_medium".data (outputTypeName c).data) "utm_campaign".data UTM_CAMPAIGN.data := by
  simp [trackedQuery]

theorem trackedQuery_utm_facts (q0 : List (List Char × List Char)) (c : OutputType) :
    countKey "utm_source".data (trackedQuery q0 c []) = 1 ∧
    getKey "utm_source".data (trackedQuery q0 c []) = some UTM_SOURCE.data ∧
    countKey "utm_medium".data (trackedQuery q0 c []) = 1 ∧
    getKey "utm_medium".data (trackedQuery q0 c []) = some (outputTypeName c).data ∧
    countKey "utm_campaign".data (trackedQuery q0 c []) = 1 ∧
    getKey "utm_campaign".data (trackedQuery q0 c []) = some UTM_CAMPAIGN.data := by
  rw [trackedQuery_nil_eq]
  refine ⟨?_, ?_, ?_, ?_, ?_, ?_⟩
  · rw [setParam_countKey_other _ _ _ _ (by decide), setParam_countKey_other _ _ _ _ (by decide)]
    exact setParam_countKey_self _ _ _
  · rw [setParam_getKey_other _ _ _ _ (by decide), setParam_getKey_other _ _ _ _ (by decide)]
    exact setParam_getKey_self _ _ _
  · rw [setParam_countKey_other _ _ _ _ (by decide)]
    exact setParam_countKey_self _ _ _
  · rw [setParam_getKey_other _ _ _ _ (by decide)]
    exact setParam_getKey_self _ _ _
  · exact setParam_countKey_self _ _ _
  · exact setParam_getKey_self _ _ _

theorem trackedQuery_idem (q0 : List (List Char × List Char)) (c : OutputType) :
    trackedQuery (trackedQuery q0 c []) c [] = trackedQuery q0 c [] := by
  obtain ⟨h1, h2, h3, h4, h5, h6⟩ := trackedQuery_utm_facts q0 c
  rw [trackedQuery_nil_eq (trackedQuery q0 c [])]
  rw [setParam_stable _ _ _ h1 h2]
  rw [setParam_stable _ _ _ h3 h4]
  rw [setParam_stable _ _ _ h5 h6]

/-- C2: link tracking is idempotent in its UTM key set. From a first
application `buildTrackedUrl u c = some t`, a second application over
the same channel returns `t` unchanged, and `t` parses to a URL whose
query holds `utm_source`, `utm_medium` and `utm_campaign` exactly once
each, with the single-application values. -/
theorem buildTrackedUrl_idempotent_utm (u : String) (c : OutputType) (t : String)
    (h : buildTrackedUrl u c [] = some t) :
    buildTrackedUrl t c [] = some t ∧
    ∃ p, parseUrl t = some p ∧
      countKey "utm_source".data p.query = 1 ∧
      getKey "utm_source".data p.query = some UTM_SOURCE.data ∧
      countKey "utm_medium".data p.query = 1 ∧
      getKey "utm_medium".data p.query = some (outputTypeName c).data ∧
      countKey "utm_campaign".data p.query = 1 ∧
      getKey "utm_campaign".data p.query = some UTM_CAMPAIGN.data := by
  obtain ⟨p0, hp0, ht⟩ := buildTracked_shape u c [] t h
  have hwf0 := parse_wf u.data p0 hp0
  simp only [urlOk, Bool.and_eq_true] at hwf0
  have hq1ok : queryOk (trackedQuery p0.query c []) = true :=
    trackedQuery_queryOk _ c [] hwf0.2 (by intro kv hkv; cases hkv)
  have hwf1 : urlOk ⟨p0.base, trackedQuery p0.query c [], p0.frag⟩ = true := by
    simp only [urlOk, Bool.and_eq_true]
    exact ⟨hwf0.1, hq1ok⟩
  have hparse_t : parseUrl t = some ⟨p0.base, trackedQuery p0.query c [], p0.frag⟩ := by
    rw [ht]
    exact serializeU_roundtrip _ hwf1
  obtain ⟨h1, h2, h3, h4, h5, h6⟩ := trackedQuery_utm_facts p0.query c
  refine ⟨?_, ⟨p0.base, trackedQuery p0.query c [], p0.frag⟩, hparse_t, h1, h2, h3, h4, h5, h6⟩
  rw [buildTrackedUrl_of_parse t c [] _ hparse_t]
  simp only
  rw [trackedQuery_idem p0.query c, ← ht]

def exTrackedC2 : String :=
  "https://example.com/post?utm_source=blog2buzz&utm_medium=newsletter&utm_campaign=content-repurpose"

/-- Witness for C2: the concrete idempotence on the example URL. -/
theorem buildTrackedUrl_idempotent_utm_witness :
    buildTrackedUrl exTrackedC2 OutputType.newsletter [] = some exTrackedC2 ∧
    ∃ p, parseUrl exTrackedC2 = some p ∧
      countKey "utm_source".data p.query = 1 ∧
      getKey "utm_source".data p.query = some UTM_SOURCE.data ∧
      countKey "utm_medium".data p.query = 1 ∧
      getKey "utm_medium".data p.query = some (outputTypeName OutputType.newsletter).data ∧
      countKey "utm_campaign".data p.query = 1 ∧
      getKey "utm_campaign".data p.query = some UTM_CAMPAIGN.data :=
  buildTrackedUrl_idempotent_utm "https://example.com/post" OutputType.newsletter
    exTrackedC2 (by decide)

def untouchedKeys (ov : List (String × String)) (k : List Char) : Bool :=
  decide (¬ (k = "utm_source".data ∨ k = "utm_medium".data ∨ k = "utm_campaign".data
    ∨ k ∈ ov.map (fun kv => kv.1.data)))

theorem untouchedKeys_utm_source (ov : List (String × String)) :
    untouchedKeys ov "utm_source".data = false := by
  apply decide_eq_false
  intro hcon
  exact hcon (Or.inl rfl)

theorem untouchedKeys_utm_medium (ov : List (String × String)) :
    untouchedKeys ov "utm_medium".data = false := by
  apply decide_eq_false
  intro hcon
  exact hcon (Or.inr (Or.inl rfl))

theorem untouchedKeys_utm_campaign (ov : List (String × String)) :
    untouchedKeys ov "utm_campaign".data = false := by
  apply decide_eq_false
  intro hcon
  exact hcon (Or.inr (Or.inr (Or.inl rfl)))

theorem untouchedKeys_override (ov : List (String × String)) (kv : String × String)
    (hkv : kv ∈ ov) : untouchedKeys ov kv.1.data = false := by
  apply decide_eq_false
  intro hcon
  exact hcon (Or.inr (Or.inr (Or.inr (List.mem_map.mpr ⟨kv, hkv, rfl⟩))))

/-- C10: `buildTrackedUrl` modifies only the query string. For a
parseable absolute URL, the result parses back with the same base
(scheme, host, port, path) and the same fragment, and the subsequence
of query pairs whose keys are neither UTM keys nor override keys is
unchanged, values included. -/
theorem buildTrackedUrl_only_query (u : String) (c : OutputType)
    (ov : List (String × String)) (p : ParsedUrl)
    (hp : parseUrl u = some p)
    (hov : ∀ kv ∈ ov, pairOk (kv.1.data, kv.2.data) = true) :
    ∃ t p', buildTrackedUrl u c ov = some t ∧ parseUrl t = some p' ∧
      p'.base = p.base ∧ p'.frag = p.frag ∧
      keepKeys (untouchedKeys ov) p'.query = keepKeys (untouchedKeys ov) p.query := by
  have hwf := parse_wf u.data p hp
  simp only [urlOk, Bool.and_eq_true] at hwf
  have hqok : queryOk (trackedQuery p.query c ov) = true :=
    trackedQuery_queryOk _ c ov hwf.2 hov
  have hwf1 : urlOk ⟨p.base, trackedQuery p.query c ov, p.frag⟩ = true := by
    simp only [urlOk, Bool.and_eq_true]
    exact ⟨hwf.1, hqok⟩
  refine ⟨_, ⟨p.base, trackedQuery p.query c ov, p.frag⟩,
    buildTrackedUrl_of_parse u c ov p hp, serializeU_roundtrip _ hwf1, rfl, rfl, ?_⟩
  show keepKeys (untouchedKeys ov) (trackedQuery p.query c ov)
      = keepKeys (untouchedKeys ov) p.query
  unfold trackedQuery
  rw [foldl_setParam_keepKeys _ ov (fun kv hkv => untouchedKeys_override ov kv hkv) _]
  rw [keepKeys_setParam _ _ _ (untouchedKeys_utm_campaign ov)]
  rw [keepKeys_setParam _ _ _ (untouchedKeys_utm_medium ov)]
  rw [keepKeys_setParam _ _ _ (untouchedKeys_utm_source ov)]

def exParsedC10 : ParsedUrl :=
  ⟨"https://example.com/a".data, [("x".data, "1".data), ("utm_source".data, "old".data)],
    some "frag".data⟩

/-- Witness for C10 on a URL with an existing query, a UTM key to
overwrite and a fragment, with one override pair. -/
theorem buildTrackedUrl_only_query_witness :
    ∃ t p', buildTrackedUrl "https://example.com/a?x=1&utm_source=old#frag"
        OutputType.social [("ref", "x")] = some t ∧ parseUrl t = some p' ∧
      p'.base = exParsedC10.base ∧ p'.frag = exParsedC10.frag ∧
      keepKeys (untouchedKeys [("ref", "x")]) p'.query
        = keepKeys (untouchedKeys [("ref", "x")]) exParsedC10.query :=
  buildTrackedUrl_only_query "https://example.com/a?x=1&utm_source=old#frag"
    OutputType.social [("ref", "x")] exParsedC10 (by decide) (by decide)

/-- C1: canonical URL resolution follows the strict priority order
link, og, twitter, fetch URL, for every resolver `res` standing for
`new URL(href, fetchUrl).toString()` (`none` when the constructor
throws). A truthy `link[rel=canonical]` href wins even when og:url is
present; each candidate is resolved against the fetch URL and a failed
resolution falls back to the fetch URL; with no truthy candidate the
fetch URL is returned unchanged. -/
theorem getCanonical_priority (res : String → String → Option String)
    (doc : DocCanonical) (url : String) :
    (∀ h, doc.linkHref = some h → h ≠ "" →
      getCanonical res doc url
        = ⟨resolveCanonical res url (some h), CanonicalSource.link⟩ ∧
      resolveCanonical res url (some h) = (res h url).getD url) ∧
    (truthy doc.linkHref = false → ∀ g, doc.ogUrl = some g → g ≠ "" →
      getCanonical res doc url = ⟨(res g url).getD url, CanonicalSource.og⟩) ∧
    (truthy doc.linkHref = false → truthy doc.ogUrl = false →
      ∀ tw, doc.twitterUrl = some tw → tw ≠ "" →
      getCanonical res doc url = ⟨(res tw url).getD url, CanonicalSource.twitter⟩) ∧
    (truthy doc.linkHref = false → truthy doc.ogUrl = false →
      truthy doc.twitterUrl = false →
      getCanonical res doc url = ⟨url, CanonicalSource.input⟩) := by
  refine ⟨?_, ?_, ?_, ?_⟩
  · intro h hl hne
    have htr : truthy (some h) = true := by simp [truthy, hne]
    constructor
    · simp [getCanonical, hl, htr]
    · simp [resolveCanonical, truthy, hne]
  · intro hlf g hog hne
    have htr : truthy (some g) = true := by simp [truthy, hne]
    have hres : resolveCanonical res url (some g) = (res g url).getD url := by
      simp [resolveCanonical, truthy, hne]
    simp [getCanonical, hlf, hog, htr, hres]
  · intro hlf hof tw htw hne
    have htr : truthy (some tw) = true := by simp [truthy, hne]
    have hres : resolveCanonical res url (some tw) = (res tw url).getD url := by
      simp [resolveCanonical, truthy, hne]
    simp [getCanonical, hlf, hof, htw, htr, hres]
  · intro hlf hof htf
    simp [getCanonical, hlf, hof, htf]

def exDocC1 : DocCanonical :=
  ⟨some "/canon", some "https://og.example/x", none⟩

/-- Witness for C1: with both a canonical link and an og:url present,
the link candidate is taken and resolved against the fetch URL. -/
theorem getCanonical_priority_witness :
    getCanonical (fun h u => if h = "bad" then none else some (u ++ h)) exDocC1
        "https://site.example"
      = ⟨resolveCanonical (fun h u => if h = "bad" then none else some (u ++ h))
          "https://site.example" (some "/canon"), CanonicalSource.link⟩ ∧
    resolveCanonical (fun h u => if h = "bad" then none else some (u ++ h))
        "https://site.example" (some "/canon")
      = ((fun (h u : String) => if h = "bad" then none else some (u ++ h)) "/canon"
          "https://site.example").getD "https://site.example" :=
  (getCanonical_priority (fun h u => if h = "bad" then none else some (u ++ h))
    exDocC1 "https://site.example").1 "/canon" rfl (by decide)

/-! Sanitizer facts. -/

theorem strContains_middle (x y z : String) : strContains (x ++ y ++ z) y = true := by
  show containsSub y.data (x ++ y ++ z).data = true
  rw [String.data_append, String.data_append, List.append_assoc]
  exact containsSub_append_mid x.data y.data z.data

theorem strContains_backlinkPara (a t : String) :
    strContains (a ++ backlinkPara t) t = true := by
  have h : a ++ backlinkPara t
      = (a ++ "\n<p><a href=\"") ++ t ++ "\">Read the full article</a></p>" := by
    simp [backlinkPara, String.append_assoc]
  rw [h]
  exact strContains_middle _ _ _

theorem strContains_left_of_append (s a b : String) (h : strContains s (a ++ b) = true) :
    strContains s a = true := by
  simp only [strContains, String.data_append] at h ⊢
  exact containsSub_of_append a.data b.data s.data h

theorem cleaned_ne_of_contains (cleaned t : String) (ht : t ≠ "")
    (h : strContains cleaned t = true) : cleaned ≠ "" := by
  intro he
  subst he
  have hd : t.data ≠ [] := fun hd => ht (String.ext hd)
  simp only [strContains] at h
  cases hdt : t.data with
  | nil => exact hd hdt
  | cons x xs => rw [hdt] at h; simp [containsSub] at h

/-- C4: the sanitization backlink guarantee for tracked canonical URLs.
When the cleaned output is non-empty and lacks the tracked URL, the
result is the cleaned output followed by the appended backlink
paragraph embedding exactly that URL; when the cleaned output already
contains the URL it is returned unchanged, with nothing appended. -/
theorem sanitize_backlink_guarantee (u : String) (c : OutputType) (t : String)
    (ht : buildTrackedUrl u c [] = some t) (output : String) :
    (cleanModel output ≠ "" → strContains (cleanModel output) t = false →
      sanitizeModelHtml output t = cleanModel output ++ backlinkPara t ∧
      strContains (sanitizeModelHtml output t) t = true) ∧
    (strContains (cleanModel output) t = true →
      sanitizeModelHtml output t = cleanModel output) := by
  have htne : t ≠ "" := buildTracked_ne_empty u c [] t ht
  constructor
  · intro hne hnc
    have heq : sanitizeModelHtml output t = cleanModel output ++ backlinkPara t := by
      simp [sanitizeModelHtml, hne, hnc]
    exact ⟨heq, by rw [heq]; exact strContains_backlinkPara _ _⟩
  · intro hc
    have hne : cleanModel output ≠ "" := cleaned_ne_of_contains _ t htne hc
    simp [sanitizeModelHtml, hne, hc]

/-- Witness for C4: a concrete output lacking the tracked URL gets the
backlink paragraph appended. -/
theorem sanitize_backlink_guarantee_witness :
    sanitizeModelHtml "hello" exTrackedC2 = cleanModel "hello" ++ backlinkPara exTrackedC2 ∧
    strContains (sanitizeModelHtml "hello" exTrackedC2) exTrackedC2 = true :=
  (sanitize_backlink_guarantee "https://example.com/post" OutputType.newsletter
    exTrackedC2 (by decide) "hello").1 (by decide) (by decide)

def fencedExample : String := "\x60\x60\x60html\n<p>hi</p>\n\x60\x60\x60"

/-- Counterexample to C7 as stated: on the fenced example output,
`sanitizeModelHtml` does not return the bare fragment for a canonical
URL absent from it — the cleaning stage yields the fragment, but the
backlink paragraph is then appended. -/
theorem sanitize_fence_not_exact :
    cleanModel fencedExample = "<p>hi</p>" ∧
    sanitizeModelHtml fencedExample "https://example.com/post" ≠ "<p>hi</p>" := by
  decide

theorem noChar_backlinkPara (url : String) (hbt : noChar btChar url.data = true) :
    noChar btChar (backlinkPara url).data = true := by
  have h1 : noChar btChar "\n<p><a href=\"".data = true := by decide
  have h2 : noChar btChar "\">Read the full article</a></p>".data = true := by decide
  show noChar btChar
    (("\n<p><a href=\"" ++ url) ++ "\">Read the full article</a></p>").data = true
  rw [String.data_append, String.data_append, noChar_append, noChar_append]
  rw [h1, h2, hbt]
  rfl

/-- C7 amended: sanitizing the fenced example strips the fences down to
the fragment; the result is the fragment followed by the appended
backlink paragraph when the canonical URL is not contained in the
fragment, and no code-fence marker remains in the result when the URL
itself carries no backtick. -/
theorem sanitize_fence_strip (url : String) (hnc : strContains "<p>hi</p>" url = false)
    (hbt : noChar btChar url.data = true) :
    cleanModel fencedExample = "<p>hi</p>" ∧
    sanitizeModelHtml fencedExample url = "<p>hi</p>" ++ backlinkPara url ∧
    strContains (sanitizeModelHtml fencedExample url)
      (String.mk [btChar, btChar, btChar]) = false := by
  have hclean : cleanModel fencedExample = "<p>hi</p>" := by decide
  have hne : cleanModel fencedExample ≠ "" := by rw [hclean]; decide
  have hnc' : strContains (cleanModel fencedExample) url = false := by rw [hclean]; exact hnc
  have heq : sanitizeModelHtml fencedExample url = "<p>hi</p>" ++ backlinkPara url := by
    simp [sanitizeModelHtml, hne, hnc', hnc, hclean]
  refine ⟨hclean, heq, ?_⟩
  rw [heq]
  show containsSub (String.mk [btChar, btChar, btChar]).data
      ("<p>hi</p>" ++ backlinkPara url).data = false
  have hno : noChar btChar ("<p>hi</p>" ++ backlinkPara url).data = true := by
    rw [String.data_append, noChar_append]
    have h1 : noChar btChar "<p>hi</p>".data = true := by decide
    simp [h1, noChar_backlinkPara url hbt]
  exact containsSub_false_of_noChar btChar [btChar, btChar] _ hno

/-- Witness for the amended C7 at a concrete canonical URL. -/
theorem sanitize_fence_strip_witness :
    cleanModel fencedExample = "<p>hi</p>" ∧
    sanitizeModelHtml fencedExample "https://example.com/post"
      = "<p>hi</p>" ++ backlinkPara "https://example.com/post" ∧
    strContains (sanitizeModelHtml fencedExample "https://example.com/post")
      (String.mk [btChar, btChar, btChar]) = false :=
  sanitize_fence_strip "https://example.com/post" (by decide) (by decide)

/-- C9: when the cleaned model output is empty, `sanitizeModelHtml`
returns the fixed placeholder sentence for any canonical URL; the
placeholder never contains a tracked canonical URL (every tracked URL
carries a question mark, the placeholder has none), so this branch is
the one case whose output carries no backlink. -/
theorem sanitize_empty_placeholder (output url u : String) (c : OutputType) (t : String)
    (h0 : cleanModel output = "") (ht : buildTrackedUrl u c [] = some t) :
    sanitizeModelHtml output url = PLACEHOLDER ∧
    strContains PLACEHOLDER t = false ∧
    sanitizeModelHtml output t = PLACEHOLDER ∧
    strContains (sanitizeModelHtml output t) t = false := by
  have hs : ∀ v : String, sanitizeModelHtml output v = PLACEHOLDER := by
    intro v
    simp [sanitizeModelHtml, h0]
  have hnotc : strContains PLACEHOLDER t = false := by
    have hq : '?' ∈ t.data := buildTracked_qmark u c [] t ht
    cases hc : strContains PLACEHOLDER t
    · rfl
    · exact absurd (containsSub_mem t.data PLACEHOLDER.data hc '?' hq) (by decide)
  exact ⟨hs url, hnotc, hs t, by rw [hs t]; exact hnotc⟩

/-- Witness for C9: a concrete output of fences and zero-width space
cleans to empty and is replaced by the placeholder. -/
theorem sanitize_empty_placeholder_witness :
    sanitizeModelHtml "\x60\x60\x60\n\u200B \n" "https://x.test/a" = PLACEHOLDER ∧
    strContains PLACEHOLDER exTrackedC2 = false ∧
    sanitizeModelHtml "\x60\x60\x60\n\u200B \n" exTrackedC2 = PLACEHOLDER ∧
    strContains (sanitizeModelHtml "\x60\x60\x60\n\u200B \n" exTrackedC2) exTrackedC2 = false :=
  sanitize_empty_placeholder "\x60\x60\x60\n\u200B \n" "https://x.test/a"
    "https://example.com/post" OutputType.newsletter exTrackedC2 (by decide) (by decide)

/-! The tone slot of the shared context block. -/

theorem append3_ne (p m s t : String) (hp : leadsWith p.data t.data = false) :
    p ++ m ++ s ≠ t := by
  intro he
  have hd : t.data = p.data ++ (m.data ++ s.data) := by
    rw [← he, String.data_append, String.data_append, List.append_assoc]
  rw [hd, leadsWith_append_self] at hp
  cases hp

theorem append2_ne (p m t : String) (hp : leadsWith p.data t.data = false) :
    p ++ m ≠ t := by
  intro he
  have hd : t.data = p.data ++ m.data := by rw [← he, String.data_append]
  rw [hd, leadsWith_append_self] at hp
  cases hp

/-- Membership of a candidate sentence in the filtered shared-context
lines reduces to the tone slot, once the candidate is ruled out of the
fixed sentences and of every line built from a distinguishing fixed
leading text. -/
theorem toneSlot_mem (md : BlogMetadata) (tn bl t : String)
    (htne : t ≠ "")
    (h1 : t ≠ "You are Blog2Buzz, an AI writing assistant that repurposes blog posts into channel-ready formats.")
    (h2 : t ≠ "The generated content must stand alone, read naturally, and entice readers to click back to the source article.")
    (h9 : t ≠ "Do not invent facts. If a detail is missing in the source text, skip it.")
    (hO : leadsWith "Original article title: ".data t.data = false)
    (hP : leadsWith "Primary author: ".data t.data = false)
    (hK : leadsWith "Key excerpt from the article: ".data t.data = false)
    (hT : leadsWith "Total word count (approximate): ".data t.data = false)
    (hA : leadsWith "Always embed this backlink exactly once in the most natural spot: ".data t.data = false) :
    t ∈ (sharedLines md tn bl).filter (fun l => l != "") ↔ toneLine tn = t := by
  constructor
  · intro hmem
    have hmem' := (List.mem_filter.mp hmem).1
    simp only [sharedLines, List.mem_cons, List.not_mem_nil, or_false] at hmem'
    rcases hmem' with d | d | d | d | d | d | d | d | d
    · exact absurd d h1
    · exact absurd d h2
    · exact absurd d.symm (append3_ne _ _ _ t hO)
    · cases hau : md.author with
      | none => rw [hau] at d; exact absurd d htne
      | some a =>
        rw [hau] at d
        have d' : t = if a ≠ "" then "Primary author: " ++ a ++ "." else "" := d
        by_cases ha : a ≠ ""
        · rw [if_pos ha] at d'
          exact absurd d'.symm (append3_ne _ _ _ t hP)
        · rw [if_neg ha] at d'
          exact absurd d' htne
    · cases hex : md.excerpt with
      | none => rw [hex] at d; exact absurd d htne
      | some e =>
        rw [hex] at d
        have d' : t = if e ≠ "" then "Key excerpt from the article: " ++ e else "" := d
        by_cases he : e ≠ ""
        · rw [if_pos he] at d'
          exact absurd d'.symm (append2_ne _ _ t hK)
        · rw [if_neg he] at d'
          exact absurd d' htne
    · exact absurd d.symm (append3_ne _ _ _ t hT)
    · exact d.symm
    · exact absurd d.symm (append3_ne _ _ _ t hA)
    · exact absurd d h9
  · intro heq
    apply List.mem_filter.mpr
    refine ⟨?_, by simp [bne_iff_ne, htne]⟩
    rw [← heq]
    simp [sharedLines]

def mdC3 : BlogMetadata := ⟨none, none, "https://example.com/post", none, none⟩

/-- Counterexample to C3 as stated: `buildPrompt` called with the tone
argument absent yields a prompt whose shared context carries the
conversational table sentence (the destructuring default substitutes
"conversational"), and the generic friendly-tone fallback appears
nowhere in the prompt. -/
theorem buildPrompt_tone_absent_cex :
    strContains (buildPrompt OutputType.newsletter "Body." mdC3 none none)
      outputToneFallback = false ∧
    strContains (buildPrompt OutputType.newsletter "Body." mdC3 none none)
      "Adopt a warm, conversational tone with clear transitions and short paragraphs." = true := by
  decide

/-- C3 amended: the tone slot of the shared context block. With the
tone argument absent, the destructuring default makes the slot the
conversational table sentence and the fallback does not occur; with a
nonempty tone string outside the table, the undefined lookup is
filtered out, so neither the fallback nor any table sentence occurs;
the fallback occurs exactly when the tone is the empty string, a value
the `Tone` type excludes. -/
theorem buildPrompt_tone_selection (md : BlogMetadata) (bl : String)
    (toneArg : Option String) :
    (toneArg = none →
      "Adopt a warm, conversational tone with clear transitions and short paragraphs."
          ∈ (sharedLines md (toneArg.getD "conversational") bl).filter (fun l => l != "") ∧
      outputToneFallback
          ∉ (sharedLines md (toneArg.getD "conversational") bl).filter (fun l => l != "")) ∧
    (∀ s, toneArg = some s → s ≠ "" → toneGuidance s = none →
      outputToneFallback ∉ (sharedLines md s bl).filter (fun l => l != "") ∧
      "Adopt a warm, conversational tone with clear transitions and short paragraphs."
          ∉ (sharedLines md s bl).filter (fun l => l != "") ∧
      "Use a confident, professional voice with crisp sentences and thoughtful structure."
          ∉ (sharedLines md s bl).filter (fun l => l != "") ∧
      "Lean into an upbeat, playful tone that still communicates the core ideas clearly."
          ∉ (sharedLines md s bl).filter (fun l => l != "")) ∧
    (toneArg = some "" →
      outputToneFallback ∈ (sharedLines md "" bl).filter (fun l => l != "")) := by
  refine ⟨?_, ?_, ?_⟩
  · intro h0
    subst h0
    constructor
    · exact (toneSlot_mem md "conversational" bl _ (by decide) (by decide) (by decide)
        (by decide) (by decide) (by decide) (by decide) (by decide) (by decide)).mpr
        (by decide)
    · intro hmem
      exact absurd ((toneSlot_mem md "conversational" bl _ (by decide) (by decide)
        (by decide) (by decide) (by decide) (by decide) (by decide) (by decide)
        (by decide)).mp hmem) (by decide)
  · intro s hsome hs hg
    have htl : toneLine s = "" := by simp [toneLine, hs, hg]
    refine ⟨?_, ?_, ?_, ?_⟩
    · intro hmem
      have := (toneSlot_mem md s bl _ (by decide) (by decide) (by decide) (by decide)
        (by decide) (by decide) (by decide) (by decide) (by decide)).mp hmem
      rw [htl] at this
      exact absurd this.symm (by decide)
    · intro hmem
      have := (toneSlot_mem md s bl _ (by decide) (by decide) (by decide) (by decide)
        (by decide) (by decide) (by decide) (by decide) (by decide)).mp hmem
      rw [htl] at this
      exact absurd this.symm (by decide)
    · intro hmem
      have := (toneSlot_mem md s bl _ (by decide) (by decide) (by decide) (by decide)
        (by decide) (by decide) (by decide) (by decide) (by decide)).mp hmem
      rw [htl] at this
      exact absurd this.symm (by decide)
    · intro hmem
      have := (toneSlot_mem md s bl _ (by decide) (by decide) (by decide) (by decide)
        (by decide) (by decide) (by decide) (by decide) (by decide)).mp hmem
      rw [htl] at this
      exact absurd this.symm (by decide)
  · intro h0
    exact (toneSlot_mem md "" bl _ (by decide) (by decide) (by decide) (by decide)
      (by decide) (by decide) (by decide) (by decide) (by decide)).mpr (by decide)

/-- Witness for the amended C3: the concrete metadata, an unrecognized
tone, and the empty tone. -/
theorem buildPrompt_tone_selection_witness :
    ("Adopt a warm, conversational tone with clear transitions and short paragraphs."
        ∈ (sharedLines mdC3 ((none : Option String).getD "conversational") "A").filter
          (fun l => l != "") ∧
      outputToneFallback
        ∉ (sharedLines mdC3 ((none : Option String).getD "conversational") "A").filter
          (fun l => l != "")) ∧
    (outputToneFallback ∉ (sharedLines mdC3 "cheerful" "A").filter (fun l => l != "") ∧
      "Adopt a warm, conversational tone with clear transitions and short paragraphs."
        ∉ (sharedLines mdC3 "cheerful" "A").filter (fun l => l != "") ∧
      "Use a confident, professional voice with crisp sentences and thoughtful structure."
        ∉ (sharedLines mdC3 "cheerful" "A").filter (fun l => l != "") ∧
      "Lean into an upbeat, playful tone that still communicates the core ideas clearly."
        ∉ (sharedLines mdC3 "cheerful" "A").filter (fun l => l != "")) ∧
    outputToneFallback ∈ (sharedLines mdC3 "" "A").filter (fun l => l != "") :=
  ⟨(buildPrompt_tone_selection mdC3 "A" none).1 rfl,
    (buildPrompt_tone_selection mdC3 "A" (some "cheerful")).2.1 "cheerful" rfl
      (by decide) (by decide),
    (buildPrompt_tone_selection mdC3 "A" (some "")).2.2 rfl⟩

/-! Route-level claims. -/

/-- ASCII lowercasing (JavaScript `toLowerCase` on the ASCII messages
involved). -/
def lowerStr (s : String) : String := String.mk (s.data.map Char.toLower)

/-- C8: a request whose `outputTypes` is the empty array is rejected
with the 400 validation response, and the per-field details cite the
select-at-least-one-output-format message. -/
theorem convert_empty_outputs_rejected (env : Env) (eff : Effects) (req : ConvertRequest)
    (h : req.outputTypes = []) :
    (POST env eff req).1
      = ConvertResponse.badRequest "Invalid input." (some (validateRequest req)) ∧
    "Select at least one output format." ∈ validateRequest req ∧
    ∃ m ∈ validateRequest req, lowerStr m = "select at least one output format." := by
  have hmem : "Select at least one output format." ∈ validateRequest req := by
    simp [validateRequest, h]
  have hne : validateRequest req ≠ [] := fun hnil => List.not_mem_nil _ (hnil ▸ hmem)
  refine ⟨?_, hmem, "Select at least one output format.", hmem, by decide⟩
  simp [POST, hne]

def envW : Env := ⟨some "k", true⟩

def effW : Effects := ⟨fun _ => Except.error "boom", fun _ _ => Except.ok "hi", none⟩

def reqC8 : ConvertRequest :=
  ⟨SourceType.text, "x", [], none, none, none, none, none⟩

/-- Witness for C8 on a concrete empty-outputs request. -/
theorem convert_empty_outputs_rejected_witness :
    (POST envW effW reqC8).1
      = ConvertResponse.badRequest "Invalid input." (some (validateRequest reqC8)) ∧
    "Select at least one output format." ∈ validateRequest reqC8 ∧
    ∃ m ∈ validateRequest reqC8, lowerStr m = "select at least one output format." :=
  convert_empty_outputs_rejected envW effW reqC8 rfl

theorem POST_fst_persist (env : Env) (ex : String → Except String ExtractedArticle)
    (gen : OutputType → String → Except String String) (e e' : Option String)
    (req : ConvertRequest) :
    (POST env ⟨ex, gen, e⟩ req).1 = (POST env ⟨ex, gen, e'⟩ req).1 := by
  by_cases hv : validateRequest req = []
  · cases hst : req.sourceType with
    | url =>
      cases hex : ex req.source with
      | error m => simp [POST, hv, hst, hex]
      | ok a =>
        cases hk : env.geminiApiKey with
        | none => simp [POST, hv, hst, hex, hk]
        | some k =>
          cases hro : runOutputs gen a.content (applyOverrides req a.metadata)
              (resolvePlatforms req) (routeTone req) [] req.outputTypes with
          | error m => simp [POST, hv, hst, hex, hk, hro]
          | ok outs => simp [POST, hv, hst, hex, hk, hro]
    | text =>
      cases hcu : req.canonicalUrl with
      | none => simp [POST, hv, hst, hcu]
      | some cu =>
        cases hk : env.geminiApiKey with
        | none => simp [POST, hv, hst, hcu, hk]
        | some k =>
          cases hro : runOutputs gen req.source (applyOverrides req (textMetadata req cu))
              (resolvePlatforms req) (routeTone req) [] req.outputTypes with
          | error m => simp [POST, hv, hst, hcu, hk, hro]
          | ok outs => simp [POST, hv, hst, hcu, hk, hro]
  · simp [POST, hv]

theorem POST_ok_persist (env : Env) (eff : Effects) (req : ConvertRequest)
    (outputs : List (OutputType × String)) (md : BlogMetadata) (content : String)
    (h : (POST env eff req).1 = ConvertResponse.ok outputs md content) :
    POST env eff req = (ConvertResponse.ok outputs md content,
      persistConversion env.supabaseConfigured eff.persistError) := by
  by_cases hv : validateRequest req = []
  · cases hst : req.sourceType with
    | url =>
      cases hex : eff.extract req.source with
      | error m => simp [POST, hv, hst, hex] at h
      | ok a =>
        cases hk : env.geminiApiKey with
        | none => simp [POST, hv, hst, hex, hk] at h
        | some k =>
          cases hro : runOutputs eff.generate a.content (applyOverrides req a.metadata)
              (resolvePlatforms req) (routeTone req) [] req.outputTypes with
          | error m => simp [POST, hv, hst, hex, hk, hro] at h
          | ok outs =>
            simp only [POST, hv, if_pos, hst, hex, hk, hro] at h ⊢
            simp only [Prod.mk.injEq]
            exact ⟨h, trivial⟩
    | text =>
      cases hcu : req.canonicalUrl with
      | none => simp [POST, hv, hst, hcu] at h
      | some cu =>
        cases hk : env.geminiApiKey with
        | none => simp [POST, hv, hst, hcu, hk] at h
        | some k =>
          cases hro : runOutputs eff.generate req.source
              (applyOverrides req (textMetadata req cu))
              (resolvePlatforms req) (routeTone req) [] req.outputTypes with
          | error m => simp [POST, hv, hst, hcu, hk, hro] at h
          | ok outs =>
            simp only [POST, hv, if_pos, hst, hcu, hk, hro] at h ⊢
            simp only [Prod.mk.injEq]
            exact ⟨h, trivial⟩
  · simp [POST, hv] at h

/-- C5: persistence is best effort and is the only swallowed error
category. The HTTP response component of POST never depends on the
error the store insert reports; when the run reaches the persistence
step (a successful conversion), the successful payload is returned and
a reported insert error only adds the persistence-failure log line;
extraction, configuration and generation errors all become the thrown
server-error response. -/
theorem persist_best_effort (env : Env) (eff : Effects) (req : ConvertRequest) :
    (∀ e, (POST env { eff with persistError := e } req).1
        = (POST env { eff with persistError := none } req).1) ∧
    (∀ outputs md content,
      (POST env eff req).1 = ConvertResponse.ok outputs md content →
      POST env eff req = (ConvertResponse.ok outputs md content,
        persistConversion env.supabaseConfigured eff.persistError)) ∧
    (validateRequest req = [] → req.sourceType = SourceType.url →
      ∀ m, eff.extract req.source = Except.error m →
      POST env eff req = (ConvertResponse.serverError m, [catchLog])) ∧
    (validateRequest req = [] → req.sourceType = SourceType.text →
      ∀ cu, req.canonicalUrl = some cu → env.geminiApiKey = none →
      POST env eff req = (ConvertResponse.serverError apiKeyMsg, [catchLog])) ∧
    (validateRequest req = [] → req.sourceType = SourceType.text →
      ∀ cu, req.canonicalUrl = some cu → ∀ k, env.geminiApiKey = some k →
      ∀ e, runOutputs eff.generate req.source (applyOverrides req (textMetadata req cu))
          (resolvePlatforms req) (routeTone req) [] req.outputTypes = Except.error e →
      POST env eff req = (ConvertResponse.serverError e, [catchLog])) := by
  obtain ⟨ex, gen, pe⟩ := eff
  refine ⟨?_, ?_, ?_, ?_, ?_⟩
  · intro e
    exact POST_fst_persist env ex gen e none req
  · intro outputs md content h
    exact POST_ok_persist env ⟨ex, gen, pe⟩ req outputs md content h
  · intro hv hst m hm
    simp only at hm
    simp [POST, hv, hst, hm]
  · intro hv hst cu hcu hk
    simp [POST, hv, hst, hcu, hk]
  · intro hv hst cu hcu k hk e hro
    simp only at hro
    simp [POST, hv, hst, hcu, hk, hro]

def reqU : ConvertRequest :=
  ⟨SourceType.url, "https://blog.example/a", [OutputType.newsletter], none, none,
    none, none, none⟩

def reqA : ConvertRequest :=
  ⟨SourceType.text, "Some article body.", [OutputType.newsletter], none, none,
    some "https://example.com/post", none, none⟩

/-- Witness for C5: a reported insert error does not change the
response, and a concrete extraction failure surfaces as the 500. -/
theorem persist_best_effort_witness :
    (POST envW { effW with persistError := some "db down" } reqA).1
      = (POST envW { effW with persistError := none } reqA).1 ∧
    POST envW effW reqU = (ConvertResponse.serverError "boom", [catchLog]) :=
  ⟨(persist_best_effort envW effW reqA).1 (some "db down"),
    (persist_best_effort envW effW reqU).2.2.1 (by decide) rfl "boom" rfl⟩

theorem sanitize_ne_empty (output url : String) (h : cleanModel output ≠ "") :
    sanitizeModelHtml output url ≠ "" := by
  cases hc : strContains (cleanModel output) url
  · have heq : sanitizeModelHtml output url = cleanModel output ++ backlinkPara url := by
      simp [sanitizeModelHtml, h, hc]
    rw [heq]
    intro he
    have hd := congrArg String.data he
    rw [String.data_append] at hd
    rcases List.append_eq_nil.mp hd with ⟨h1, -⟩
    exact h (String.ext h1)
  · have heq : sanitizeModelHtml output url = cleanModel output := by
      simp [sanitizeModelHtml, h, hc]
    rw [heq]
    exact h

theorem sanitize_contains_core (t output : String) (h : cleanModel output ≠ "") :
    strContains (sanitizeModelHtml output t) t = true := by
  cases hc : strContains (cleanModel output) t
  · have heq : sanitizeModelHtml output t = cleanModel output ++ backlinkPara t := by
      simp [sanitizeModelHtml, h, hc]
    rw [heq]
    exact strContains_backlinkPara _ _
  · have heq : sanitizeModelHtml output t = cleanModel output := by
      simp [sanitizeModelHtml, h, hc]
    rw [heq]
    exact hc

/-- C6: end-to-end scenario A. For a text request with canonical URL
"https://example.com/post" and the single output type newsletter, with
any configured key and any model whose cleaned reply is non-empty, the
response holds the newsletter key with non-empty HTML containing the
tracked canonical URL (hence the plain URL), while the returned
metadata keeps exactly the untracked canonical URL. -/
theorem convert_scenarioA_frame (env : Env) (eff : Effects) (k : String)
    (hk : env.geminiApiKey = some k)
    (g : OutputType → String → String)
    (hg : ∀ t p, eff.generate t p = Except.ok (g t p))
    (hclean : ∀ t p, cleanModel (g t p) ≠ "") :
    ∃ html,
      (POST env eff reqA).1 = ConvertResponse.ok [(OutputType.newsletter, html)]
        ⟨none, none, "https://example.com/post", none, none⟩ "Some article body." ∧
      html ≠ "" ∧
      strContains html exTrackedC2 = true ∧
      strContains html "https://example.com/post" = true := by
  have hval : validateRequest ⟨SourceType.text, "Some article body.",
      [OutputType.newsletter], none, none, some "https://example.com/post",
      none, none⟩ = [] := by decide
  have htr : buildTrackedUrl "https://example.com/post" OutputType.newsletter []
      = some exTrackedC2 := by decide
  refine ⟨sanitizeModelHtml
      (g OutputType.newsletter (buildPrompt OutputType.newsletter "Some article body."
        ⟨none, none, exTrackedC2, none, none⟩ (some DEFAULT_PLATFORMS)
        (some "conversational")))
      exTrackedC2, ?_, ?_, ?_, ?_⟩
  · simp only [POST, hval, reqA, textMetadata, applyOverrides, hk, runOutputs, htr, hg,
      setOutput, resolvePlatforms, routeTone, toneName, DEFAULT_TONE, if_true]
  · exact sanitize_ne_empty _ _ (hclean _ _)
  · exact sanitize_contains_core _ _ (hclean _ _)
  · have hdecomp : exTrackedC2 = "https://example.com/post"
        ++ "?utm_source=blog2buzz&utm_medium=newsletter&utm_campaign=content-repurpose" := by
      decide
    apply strContains_left_of_append _ _
      "?utm_source=blog2buzz&utm_medium=newsletter&utm_campaign=content-repurpose"
    rw [← hdecomp]
    exact sanitize_contains_core _ _ (hclean _ _)

def envC6 : Env := ⟨some "key", false⟩

def effC6 : Effects :=
  ⟨fun _ => Except.error "no", fun _ _ => Except.ok "hello", none⟩

/-- Witness for C6 with a concrete environment and model. -/
theorem convert_scenarioA_frame_witness :
    ∃ html,
      (POST envC6 effC6 reqA).1 = ConvertResponse.ok [(OutputType.newsletter, html)]
        ⟨none, none, "https://example.com/post", none, none⟩ "Some article body." ∧
      html ≠ "" ∧
      strContains html exTrackedC2 = true ∧
      strContains html "https://example.com/post" = true :=
  convert_scenarioA_frame envC6 effC6 "key" rfl (fun _ _ => "hello")
    (fun _ _ => rfl) (fun _ _ => (by decide : cleanModel "hello" ≠ ""))
